import Mathlib

/-!
Verification development for the `acpp-smart-ptrs` library
(`src/shared.h`, `src/unique.h`): a shallow embedding of the
control-block hierarchy, `SharedPtr`, `MakeShared` and `UniquePtr`,
together with theorems about the reference-counting behaviour.

Modelling conventions:
* Raw C++ pointers become `Option Addr` (`none` = `nullptr`).
* The heap of control blocks is a `List CtrlBlock`; a control block
  pointer is an index into that list.  Allocation appends; a block is
  never physically removed, instead the ghost event log of the block
  records when `OnZeroShared` (payload destruction) and `OnZeroWeak`
  (`delete this`) ran, so "runs exactly once" is expressible.
* `ControlBlockPtr<T>` and `ControlBlockMakeShared<T>` duplicate
  token-identical counter logic in the source; they are modelled as one
  structure `CtrlBlock` with a `kind` tag carrying the variant-specific
  data (the separately allocated payload pointer vs. the inline
  `holder_` storage).  The counters are `size_t`; they are modelled as
  `Nat` (a reference count cannot overflow `2^64` in any realizable
  execution, and decrementing at 0 is excluded by the documented
  precondition `shared_count > 0`).
* Null-pointer dereference (e.g. `p_ctrl_block_->IncrSharedCount()` on a
  null block) is undefined behaviour; fallible operations therefore
  return `Option`, with `none` marking an invalid execution.
-/

/-- An address: either a separately heap-allocated object (the target of
`ControlBlockPtr`'s `p_obj_`) or the inline `holder_` storage embedded in
control block number `cbId` (`ControlBlockMakeShared`). -/
inductive Addr where
  | heapObj (n : Nat)
  | inlineObj (cbId : Nat)
deriving DecidableEq

/-- Ghost event recorded on a control block: `destroyPayload` marks a run
of `OnZeroShared` (the payload destructor / `delete p_obj_`);
`destroySelf` marks a run of `OnZeroWeak` (`delete this`). -/
inductive CBEvent where
  | destroyPayload
  | destroySelf
deriving DecidableEq

/-- The variant-specific data of the two control-block classes:
`ControlBlockPtr<T>` stores the payload pointer `p_obj_`;
`ControlBlockMakeShared<T>` embeds the payload in its own `holder_`. -/
inductive CBKind where
  | ptrBlock (p_obj_ : Option Addr)
  | msBlock
deriving DecidableEq

/-- A control block: `weak_cnt_` and `shared_cnt_` exactly as in both
`ControlBlockPtr` and `ControlBlockMakeShared` (initialised 0 and 1 by
their member initialisers), plus the ghost event log. -/
structure CtrlBlock where
  kind : CBKind
  weak_cnt_ : Nat
  shared_cnt_ : Nat
  log : List CBEvent
deriving DecidableEq

/-- `OnZeroShared()`: destroys the payload (`delete p_obj_` in
`ControlBlockPtr`, in-place `~T()` in `ControlBlockMakeShared`); the
model records the ghost event. -/
def CtrlBlock.OnZeroShared (b : CtrlBlock) : CtrlBlock :=
  { b with log := b.log ++ [CBEvent.destroyPayload] }

/-- `OnZeroWeak()`: `delete this` in both variants; the model records the
ghost event. -/
def CtrlBlock.OnZeroWeak (b : CtrlBlock) : CtrlBlock :=
  { b with log := b.log ++ [CBEvent.destroySelf] }

/-- `IncrSharedCount()`: `shared_cnt_++`. -/
def CtrlBlock.IncrSharedCount (b : CtrlBlock) : CtrlBlock :=
  { b with shared_cnt_ := b.shared_cnt_ + 1 }

/-- `GetSharedCount()`. -/
def CtrlBlock.GetSharedCount (b : CtrlBlock) : Nat :=
  b.shared_cnt_

/-- `DecrSharedCount()` (identical bodies in `ControlBlockPtr` and
`ControlBlockMakeShared`): `--shared_cnt_; if (shared_cnt_ == 0 &&
weak_cnt_ == 0) { OnZeroShared(); OnZeroWeak(); } else if (shared_cnt_ ==
0) { OnZeroShared(); }`. -/
def CtrlBlock.DecrSharedCount (b : CtrlBlock) : CtrlBlock :=
  let b1 : CtrlBlock := { b with shared_cnt_ := b.shared_cnt_ - 1 }
  if b1.shared_cnt_ = 0 ∧ b1.weak_cnt_ = 0 then
    b1.OnZeroShared.OnZeroWeak
  else if b1.shared_cnt_ = 0 then
    b1.OnZeroShared
  else
    b1

/-- Positional lookup in a list (the model of dereferencing a
control-block pointer, which is an index into the heap). -/
def listGet {α : Type} : List α → Nat → Option α
  | [], _ => none
  | a :: _, 0 => some a
  | _ :: as, n + 1 => listGet as n

/-- Positional update in a list (the model of mutating the pointed-to
control block through its pointer). -/
def listSet {α : Type} : List α → Nat → α → List α
  | [], _, _ => []
  | _ :: as, 0, b => b :: as
  | a :: as, n + 1, b => a :: listSet as n b

/-- The heap of allocated control blocks. -/
abbrev Heap := List CtrlBlock

/-- `SharedPtr<T>`: the two data members `p_ctrl_block_` (index into the
heap, `none` = `nullptr`, matching the default member initialiser) and
`raw_ptr_`. -/
structure SharedPtr where
  p_ctrl_block_ : Option Nat
  raw_ptr_ : Option Addr
deriving DecidableEq

/-- `SharedPtr()` and `SharedPtr(std::nullptr_t)`: `raw_ptr_ = nullptr`,
`p_ctrl_block_` keeps its default initialiser `nullptr`. -/
def SharedPtr.mkEmpty : SharedPtr := ⟨none, none⟩

/-- `Get()`: returns `raw_ptr_`. -/
def SharedPtr.Get (sp : SharedPtr) : Option Addr := sp.raw_ptr_

/-- `explicit operator bool()`: `Get() == nullptr ? false : true`. -/
def SharedPtr.toBool (sp : SharedPtr) : Bool :=
  if sp.Get = none then false else true

/-- `explicit SharedPtr(T* ptr)` (and the templated `Y*` overload):
`p_ctrl_block_ = new ControlBlockPtr(ptr); raw_ptr_ = ptr;`.  The new
block has `weak_cnt_ = 0`, `shared_cnt_ = 1`, `p_obj_ = ptr`. -/
def SharedPtr.fromRaw (h : Heap) (ptr : Option Addr) : SharedPtr × Heap :=
  (⟨some h.length, ptr⟩, h ++ [⟨CBKind.ptrBlock ptr, 0, 1, []⟩])

/-- `SharedPtr(const SharedPtr& other)` (and the templated overload):
`if (!other) { raw_ptr_ = nullptr; } else { raw_ptr_ = other.raw_ptr_;
p_ctrl_block_ = other.p_ctrl_block_; p_ctrl_block_->IncrSharedCount(); }`.
Incrementing through a null or dangling control-block pointer is
undefined behaviour, modelled as `none`. -/
def SharedPtr.copy (h : Heap) (other : SharedPtr) : Option (SharedPtr × Heap) :=
  if other.toBool = false then some (SharedPtr.mkEmpty, h)
  else
    match other.p_ctrl_block_ with
    | none => none
    | some i =>
      match listGet h i with
      | none => none
      | some b => some (⟨some i, other.raw_ptr_⟩, listSet h i b.IncrSharedCount)

/-- `SharedPtr(SharedPtr&& other)` (and the templated overload): the new
handle takes both members, the source is left with `nullptr` in both.
Returns (new handle, source after the move). -/
def SharedPtr.move (other : SharedPtr) : SharedPtr × SharedPtr :=
  (⟨other.p_ctrl_block_, other.raw_ptr_⟩, ⟨none, none⟩)

/-- The aliasing constructor `SharedPtr(const SharedPtr<Y>& other, T*
ptr)`: after a dead store of `nullptr` to `raw_ptr_` when `!other`, it
unconditionally runs `p_ctrl_block_ = other.p_ctrl_block_;
p_ctrl_block_->IncrSharedCount(); raw_ptr_ = ptr;` — so an empty `other`
dereferences a null control-block pointer (undefined behaviour,
modelled as `none`). -/
def SharedPtr.aliasCtor (h : Heap) (other : SharedPtr) (ptr : Option Addr) :
    Option (SharedPtr × Heap) :=
  match other.p_ctrl_block_ with
  | none => none
  | some i =>
    match listGet h i with
    | none => none
    | some b => some (⟨some i, ptr⟩, listSet h i b.IncrSharedCount)

/-- `~SharedPtr()`: `if (p_ctrl_block_) { p_ctrl_block_->DecrSharedCount(); }`. -/
def SharedPtr.destruct (h : Heap) (sp : SharedPtr) : Option Heap :=
  match sp.p_ctrl_block_ with
  | none => some h
  | some i =>
    match listGet h i with
    | none => none
    | some b => some (listSet h i b.DecrSharedCount)

/-- `UseCount()`: `if (!p_ctrl_block_) { return 0; } else { return
p_ctrl_block_->GetSharedCount(); }`. -/
def SharedPtr.UseCount (h : Heap) (sp : SharedPtr) : Option Nat :=
  match sp.p_ctrl_block_ with
  | none => some 0
  | some i =>
    match listGet h i with
    | none => none
    | some b => some b.GetSharedCount

/-- `MakeShared<T>(args...)`: `result.p_ctrl_block_ = new
ControlBlockMakeShared<T>;` (the single heap allocation, `shared_cnt_ =
1`, `weak_cnt_ = 0`), then `result.raw_ptr_ = new (&...->holder_)
T(args...)` — placement construction into the block's own storage, whose
address is `Addr.inlineObj` of the new block. -/
def MakeShared (h : Heap) : SharedPtr × Heap :=
  (⟨some h.length, some (Addr.inlineObj h.length)⟩, h ++ [⟨CBKind.msBlock, 0, 1, []⟩])

/-- `MakeShared` with the possibility that `T`'s constructor raises
during the placement construction (`ctorOk = false`).  At the moment of
the throw, the local `result` is a fully constructed `SharedPtr` whose
`p_ctrl_block_` already points at the freshly allocated
`ControlBlockMakeShared` and whose `raw_ptr_` is still null (the
placement `new`'s result was never assigned).  The exception propagates
(no handle is returned), and stack unwinding runs `result.~SharedPtr()`
— modelled by `SharedPtr.destruct` on that handle — which decrements
the fresh block from 1 to 0 and so invokes `OnZeroShared` (the in-place
`~T()` on the never-constructed `holder_` storage) and then
`OnZeroWeak` (`delete this`).  The `getD` fallback is unreachable: the
block the handle points to was appended one line earlier. -/
def MakeSharedTry (h : Heap) (ctorOk : Bool) : Option SharedPtr × Heap :=
  let result : SharedPtr := ⟨some h.length, none⟩
  let h1 : Heap := h ++ [⟨CBKind.msBlock, 0, 1, []⟩]
  if ctorOk then (some ⟨some h.length, some (Addr.inlineObj h.length)⟩, h1)
  else (none, (SharedPtr.destruct h1 result).getD h1)

/-- `UniquePtr<T, Deleter>`: only the raw pointer member matters for the
claims; deleter invocations are reported as a ghost list of the pointers
passed to `GetDeleter()(...)`. -/
structure UniquePtr where
  raw_ptr_ : Option Addr
deriving DecidableEq

/-- `UniquePtr::Get()`. -/
def UniquePtr.Get (u : UniquePtr) : Option Addr := u.raw_ptr_

/-- `Release()`: `T* res_ptr = Get(); raw_ptr_ = nullptr; return
res_ptr;` — returns (result, handle afterwards, deleter invocations:
none). -/
def UniquePtr.Release (u : UniquePtr) : Option Addr × UniquePtr × List Addr :=
  (u.Get, ⟨none⟩, [])

/-- `Reset(ptr)`: `std::swap(raw_ptr_, ptr); if (ptr) {
GetDeleter()(std::move(ptr)); }` — returns (handle afterwards, deleter
invocations). -/
def UniquePtr.Reset (u : UniquePtr) (ptr : Option Addr) : UniquePtr × List Addr :=
  match u.raw_ptr_ with
  | some old => (⟨ptr⟩, [old])
  | none => (⟨ptr⟩, [])

/-- `~UniquePtr()`: `if (raw_ptr_) { GetDeleter()(std::move(raw_ptr_));
raw_ptr_ = nullptr; }` — returns (handle afterwards, deleter
invocations). -/
def UniquePtr.destruct (u : UniquePtr) : UniquePtr × List Addr :=
  match u.raw_ptr_ with
  | some p => (⟨none⟩, [p])
  | none => (⟨none⟩, [])

/-- A program state: the heap of control blocks plus the handles in
scope.  A slot is `none` once the handle at that position has been
destructed. -/
structure World where
  heap : Heap
  handles : List (Option SharedPtr)
deriving DecidableEq

/-- The `SharedPtr` operations a client can perform on the handles in
scope (creation of further objects aside): default construction, copy
construction, move construction, aliasing construction, destruction,
`Reset()`, copy assignment and move assignment. -/
inductive Op where
  | mkDefault
  | mkCopy (src : Nat)
  | mkMove (src : Nat)
  | mkAlias (src : Nat) (ptr : Option Addr)
  | destroy (i : Nat)
  | reset (i : Nat)
  | assign (dst src : Nat)
  | moveAssign (dst src : Nat)
deriving DecidableEq

/-- One operation on the program state.  Copy assignment is
`SharedPtr<T>(other).Swap(*this)` followed by the temporary's
destructor; move assignment is `SharedPtr<T>(std::move(other)).Swap(*this)`
followed by the temporary's destructor; `Reset()` is
`SharedPtr().Swap(*this)` followed by the temporary's destructor.
Operations on destroyed or out-of-scope handles, and undefined
behaviour inside an operation, yield `none`. -/
def World.step (w : World) (op : Op) : Option World :=
  match op with
  | Op.mkDefault => some ⟨w.heap, w.handles ++ [some SharedPtr.mkEmpty]⟩
  | Op.mkCopy src => do
    let s ← listGet w.handles src
    let sp ← s
    let (c, h1) ← SharedPtr.copy w.heap sp
    pure ⟨h1, w.handles ++ [some c]⟩
  | Op.mkMove src => do
    let s ← listGet w.handles src
    let sp ← s
    let (m, srcNew) := SharedPtr.move sp
    pure ⟨w.heap, listSet w.handles src (some srcNew) ++ [some m]⟩
  | Op.mkAlias src ptr => do
    let s ← listGet w.handles src
    let sp ← s
    let (c, h1) ← SharedPtr.aliasCtor w.heap sp ptr
    pure ⟨h1, w.handles ++ [some c]⟩
  | Op.destroy i => do
    let s ← listGet w.handles i
    let sp ← s
    let h1 ← SharedPtr.destruct w.heap sp
    pure ⟨h1, listSet w.handles i none⟩
  | Op.reset i => do
    let s ← listGet w.handles i
    let sp ← s
    let h1 ← SharedPtr.destruct w.heap sp
    pure ⟨h1, listSet w.handles i (some SharedPtr.mkEmpty)⟩
  | Op.assign dst src => do
    let so ← listGet w.handles src
    let other ← so
    let (temp, h1) ← SharedPtr.copy w.heap other
    let dv ← listGet w.handles dst
    let oldDst ← dv
    let h2 ← SharedPtr.destruct h1 oldDst
    pure ⟨h2, listSet w.handles dst (some temp)⟩
  | Op.moveAssign dst src => do
    let so ← listGet w.handles src
    let other ← so
    let hs1 := listSet w.handles src (some SharedPtr.mkEmpty)
    let dv ← listGet hs1 dst
    let oldDst ← dv
    let h2 ← SharedPtr.destruct w.heap oldDst
    pure ⟨h2, listSet hs1 dst (some other)⟩

/-- Run a sequence of operations. -/
def World.run (w : World) (ops : List Op) : Option World :=
  match ops with
  | [] => some w
  | op :: rest =>
    match w.step op with
    | none => none
    | some w1 => w1.run rest

/-- The two ways the one owned object of a scenario comes into being:
`explicit SharedPtr(T*)` on a separately allocated object, or
`MakeShared`. -/
inductive InitKind where
  | rawInit (a : Nat)
  | msInit
deriving DecidableEq

/-- The program state right after creating the first handle to the one
owned object. -/
def startWorld : InitKind → World
  | InitKind.rawInit a =>
    let r := SharedPtr.fromRaw [] (some (Addr.heapObj a))
    ⟨r.2, [some r.1]⟩
  | InitKind.msInit =>
    let r := MakeShared []
    ⟨r.2, [some r.1]⟩

/-- How many times the payload destructor (`OnZeroShared`) has run on a
control block. -/
def payloadDtorRuns (b : CtrlBlock) : Nat :=
  b.log.count CBEvent.destroyPayload

/-- Owner bit of a handle slot: 1 when the slot holds a live handle whose
control-block pointer is block 0. -/
def ownerBit : Option SharedPtr → Nat
  | some sp => if sp.p_ctrl_block_ = some 0 then 1 else 0
  | none => 0

/-- Number of live handles referencing control block 0. -/
def ownersB (hs : List (Option SharedPtr)) : Nat :=
  (hs.map ownerBit).sum

theorem listGet_append_left {α : Type} (l l' : List α) (i : Nat) (v : α)
    (h : listGet l i = some v) : listGet (l ++ l') i = some v := by
  induction l generalizing i with
  | nil => simp [listGet] at h
  | cons a as ih =>
    cases i with
    | zero => simpa [listGet] using h
    | succ n => simpa [listGet] using ih n (by simpa [listGet] using h)

theorem listGet_append_length {α : Type} (l : List α) (a : α) :
    listGet (l ++ [a]) l.length = some a := by
  induction l with
  | nil => rfl
  | cons b bs ih => simpa [listGet] using ih

theorem listGet_set_self {α : Type} (l : List α) (i : Nat) (x y : α)
    (h : listGet l i = some y) : listGet (listSet l i x) i = some x := by
  induction l generalizing i with
  | nil => simp [listGet] at h
  | cons a as ih =>
    cases i with
    | zero => rfl
    | succ n => simpa [listGet, listSet] using ih n (by simpa [listGet] using h)

theorem listGet_set_ne {α : Type} (l : List α) (i j : Nat) (x : α)
    (h : i ≠ j) : listGet (listSet l i x) j = listGet l j := by
  induction l generalizing i j with
  | nil => rfl
  | cons a as ih =>
    cases i with
    | zero =>
      cases j with
      | zero => exact absurd rfl h
      | succ m => rfl
    | succ n =>
      cases j with
      | zero => rfl
      | succ m => simpa [listGet, listSet] using ih n m (by omega)

theorem listSet_set_self {α : Type} (l : List α) (i : Nat) (x y : α) :
    listSet (listSet l i x) i y = listSet l i y := by
  induction l generalizing i with
  | nil => rfl
  | cons a as ih =>
    cases i with
    | zero => rfl
    | succ n => simpa [listSet] using ih n

theorem listGet_singleton {α : Type} (b c : α) (i : Nat)
    (h : listGet [b] i = some c) : i = 0 ∧ c = b := by
  cases i with
  | zero => simpa [listGet] using h.symm
  | succ n => simp [listGet] at h

theorem ownersB_append (hs : List (Option SharedPtr)) (x : Option SharedPtr) :
    ownersB (hs ++ [x]) = ownersB hs + ownerBit x := by
  simp [ownersB]

theorem ownersB_set (hs : List (Option SharedPtr)) (i : Nat)
    (x y : Option SharedPtr) (h : listGet hs i = some y) :
    ownersB (listSet hs i x) + ownerBit y = ownersB hs + ownerBit x := by
  induction hs generalizing i with
  | nil => simp [listGet] at h
  | cons a as ih =>
    cases i with
    | zero =>
      have : a = y := by simpa [listGet] using h
      subst this
      simp [ownersB, listSet]
      omega
    | succ n =>
      have hh := ih n (by simpa [listGet] using h)
      simp [ownersB, listSet] at hh ⊢
      omega

theorem ownerBit_le_ownersB (hs : List (Option SharedPtr)) (i : Nat)
    (y : Option SharedPtr) (h : listGet hs i = some y) :
    ownerBit y ≤ ownersB hs := by
  induction hs generalizing i with
  | nil => simp [listGet] at h
  | cons a as ih =>
    cases i with
    | zero =>
      have : a = y := by simpa [listGet] using h
      subst this
      simp [ownersB]
    | succ n =>
      have hh := ih n (by simpa [listGet] using h)
      simp [ownersB] at hh ⊢
      omega

/-- Behaviour of `DecrSharedCount` when the weak count is zero: the
shared count drops by one, and exactly when it thereby reaches zero the
block logs payload destruction followed by self destruction. -/
theorem DecrSharedCount_weak0 (b : CtrlBlock) (hw : b.weak_cnt_ = 0) :
    b.DecrSharedCount.shared_cnt_ = b.shared_cnt_ - 1 ∧
    b.DecrSharedCount.weak_cnt_ = 0 ∧
    b.DecrSharedCount.kind = b.kind ∧
    b.DecrSharedCount.log =
      (if b.shared_cnt_ - 1 = 0 then
        b.log ++ [CBEvent.destroyPayload, CBEvent.destroySelf]
      else b.log) := by
  by_cases h0 : b.shared_cnt_ - 1 = 0 <;>
    simp [CtrlBlock.DecrSharedCount, CtrlBlock.OnZeroShared, CtrlBlock.OnZeroWeak, hw, h0]

/-- What the copy constructor can do over a one-block heap. -/
theorem copy_singleton (b : CtrlBlock) (sp : SharedPtr) (res : SharedPtr × Heap)
    (h : SharedPtr.copy [b] sp = some res) :
    (sp.raw_ptr_ = none ∧ res = (SharedPtr.mkEmpty, [b])) ∨
    (sp.raw_ptr_ ≠ none ∧ sp.p_ctrl_block_ = some 0 ∧
      res = (⟨some 0, sp.raw_ptr_⟩, [b.IncrSharedCount])) := by
  by_cases hraw : sp.raw_ptr_ = none
  · left
    refine ⟨hraw, ?_⟩
    simp [SharedPtr.copy, SharedPtr.toBool, SharedPtr.Get, hraw] at h
    exact h.symm
  · right
    cases hcb : sp.p_ctrl_block_ with
    | none => simp [SharedPtr.copy, SharedPtr.toBool, SharedPtr.Get, hraw, hcb] at h
    | some i =>
      cases i with
      | zero =>
        simp [SharedPtr.copy, SharedPtr.toBool, SharedPtr.Get, hraw, hcb, listGet,
          listSet] at h
        exact ⟨hraw, rfl, h.symm⟩
      | succ n =>
        simp [SharedPtr.copy, SharedPtr.toBool, SharedPtr.Get, hraw, hcb, listGet] at h

/-- What the aliasing constructor can do over a one-block heap. -/
theorem aliasCtor_singleton (b : CtrlBlock) (sp : SharedPtr) (p : Option Addr)
    (res : SharedPtr × Heap) (h : SharedPtr.aliasCtor [b] sp p = some res) :
    sp.p_ctrl_block_ = some 0 ∧ res = (⟨some 0, p⟩, [b.IncrSharedCount]) := by
  cases hcb : sp.p_ctrl_block_ with
  | none => simp [SharedPtr.aliasCtor, hcb] at h
  | some i =>
    cases i with
    | zero =>
      simp [SharedPtr.aliasCtor, hcb, listGet, listSet] at h
      exact ⟨rfl, h.symm⟩
    | succ n => simp [SharedPtr.aliasCtor, hcb, listGet] at h

/-- What the destructor can do over a one-block heap. -/
theorem destruct_singleton (b : CtrlBlock) (sp : SharedPtr) (h1 : Heap)
    (h : SharedPtr.destruct [b] sp = some h1) :
    (sp.p_ctrl_block_ = none ∧ h1 = [b]) ∨
    (sp.p_ctrl_block_ = some 0 ∧ h1 = [b.DecrSharedCount]) := by
  cases hcb : sp.p_ctrl_block_ with
  | none =>
    left
    refine ⟨rfl, ?_⟩
    simp [SharedPtr.destruct, hcb] at h
    exact h.symm
  | some i =>
    cases i with
    | zero =>
      right
      refine ⟨rfl, ?_⟩
      simp [SharedPtr.destruct, hcb, listGet, listSet] at h
      exact h.symm
    | succ n => simp [SharedPtr.destruct, hcb, listGet] at h

/-- The single-owned-object invariant: the heap holds exactly one
control block, its weak count is zero, its shared count equals the
number of live handles referencing it, and its event log is empty until
the last owner disappears, at which point it is exactly payload
destruction followed by self destruction. -/
def InvC1 (w : World) : Prop :=
  ∃ b, w.heap = [b] ∧ b.weak_cnt_ = 0 ∧ b.shared_cnt_ = ownersB w.handles ∧
    b.log = (if ownersB w.handles = 0 then
      [CBEvent.destroyPayload, CBEvent.destroySelf] else [])

theorem step_preserves_InvC1 (w w' : World) (op : Op)
    (hw : InvC1 w) (hs : w.step op = some w') : InvC1 w' := by
  obtain ⟨b, hheap, hwk, hcnt, hlog⟩ := hw
  cases op with
  | mkDefault =>
    simp [World.step] at hs
    subst hs
    have heq : ownersB (w.handles ++ [some SharedPtr.mkEmpty]) = ownersB w.handles := by
      rw [ownersB_append]
      simp [ownerBit, SharedPtr.mkEmpty]
    exact ⟨b, hheap, hwk, by rw [hcnt, heq], by rw [heq]; exact hlog⟩
  | mkCopy src =>
    cases hget : listGet w.handles src with
    | none => simp [World.step, hget] at hs
    | some s =>
      cases s with
      | none => simp [World.step, hget] at hs
      | some sp =>
        cases hcopy : SharedPtr.copy w.heap sp with
        | none => simp [World.step, hget, hcopy] at hs
        | some res =>
          obtain ⟨c, h1⟩ := res
          simp [World.step, hget, hcopy] at hs
          subst hs
          rw [hheap] at hcopy
          rcases copy_singleton b sp _ hcopy with ⟨hraw, hres⟩ | ⟨hraw, hcb, hres⟩
          · injection hres with hc hh1
            subst hc; subst hh1
            have heq : ownersB (w.handles ++ [some SharedPtr.mkEmpty]) = ownersB w.handles := by
              rw [ownersB_append]
              simp [ownerBit, SharedPtr.mkEmpty]
            exact ⟨b, rfl, hwk, by rw [hcnt, heq], by rw [heq]; exact hlog⟩
          · injection hres with hc hh1
            subst hc; subst hh1
            have hbit : ownerBit (some sp) = 1 := by simp [ownerBit, hcb]
            have hge := ownerBit_le_ownersB w.handles src (some sp) hget
            rw [hbit] at hge
            have heq : ownersB (w.handles ++ [some ⟨some 0, sp.raw_ptr_⟩]) =
                ownersB w.handles + 1 := by
              rw [ownersB_append]
              simp [ownerBit]
            refine ⟨b.IncrSharedCount, rfl, ?_, ?_, ?_⟩
            · simpa [CtrlBlock.IncrSharedCount] using hwk
            · simp only [CtrlBlock.IncrSharedCount]
              rw [heq, hcnt]
            · simp only [CtrlBlock.IncrSharedCount]
              rw [heq, hlog, if_neg (by omega), if_neg (by omega)]
  | mkMove src =>
    cases hget : listGet w.handles src with
    | none => simp [World.step, hget] at hs
    | some s =>
      cases s with
      | none => simp [World.step, hget] at hs
      | some sp =>
        simp [World.step, hget, SharedPtr.move] at hs
        subst hs
        have hset := ownersB_set w.handles src
          (some ⟨none, none⟩) (some sp) hget
        have hbit0 : ownerBit (some (⟨none, none⟩ : SharedPtr)) = 0 := by
          simp [ownerBit]
        have hbit2 : ownerBit (some (⟨sp.p_ctrl_block_, sp.raw_ptr_⟩ : SharedPtr)) =
            ownerBit (some sp) := rfl
        have heq : ownersB (listSet w.handles src (some ⟨none, none⟩) ++
            [some ⟨sp.p_ctrl_block_, sp.raw_ptr_⟩]) = ownersB w.handles := by
          rw [ownersB_append, hbit2]
          omega
        exact ⟨b, hheap, hwk, by rw [hcnt, heq], by rw [heq]; exact hlog⟩
  | mkAlias src ptr =>
    cases hget : listGet w.handles src with
    | none => simp [World.step, hget] at hs
    | some s =>
      cases s with
      | none => simp [World.step, hget] at hs
      | some sp =>
        cases hal : SharedPtr.aliasCtor w.heap sp ptr with
        | none => simp [World.step, hget, hal] at hs
        | some res =>
          obtain ⟨c, h1⟩ := res
          simp [World.step, hget, hal] at hs
          subst hs
          rw [hheap] at hal
          obtain ⟨hcb, hres⟩ := aliasCtor_singleton b sp ptr _ hal
          injection hres with hc hh1
          subst hc; subst hh1
          have hbit : ownerBit (some sp) = 1 := by simp [ownerBit, hcb]
          have hge := ownerBit_le_ownersB w.handles src (some sp) hget
          rw [hbit] at hge
          have heq : ownersB (w.handles ++ [some ⟨some 0, ptr⟩]) =
              ownersB w.handles + 1 := by
            rw [ownersB_append]
            simp [ownerBit]
          refine ⟨b.IncrSharedCount, rfl, ?_, ?_, ?_⟩
          · simpa [CtrlBlock.IncrSharedCount] using hwk
          · simp only [CtrlBlock.IncrSharedCount]
            rw [heq, hcnt]
          · simp only [CtrlBlock.IncrSharedCount]
            rw [heq, hlog, if_neg (by omega), if_neg (by omega)]
  | destroy i =>
    cases hget : listGet w.handles i with
    | none => simp [World.step, hget] at hs
    | some s =>
      cases s with
      | none => simp [World.step, hget] at hs
      | some sp =>
        cases hdes : SharedPtr.destruct w.heap sp with
        | none => simp [World.step, hget, hdes] at hs
        | some h1 =>
          simp [World.step, hget, hdes] at hs
          subst hs
          rw [hheap] at hdes
          have hset := ownersB_set w.handles i none (some sp) hget
          have hbitn : ownerBit (none : Option SharedPtr) = 0 := rfl
          rcases destruct_singleton b sp h1 hdes with ⟨hcb, hh1⟩ | ⟨hcb, hh1⟩
          · subst hh1
            have hbit : ownerBit (some sp) = 0 := by simp [ownerBit, hcb]
            have heq : ownersB (listSet w.handles i none) = ownersB w.handles := by
              omega
            exact ⟨b, rfl, hwk, by rw [hcnt, heq], by rw [heq]; exact hlog⟩
          · subst hh1
            have hbit : ownerBit (some sp) = 1 := by simp [ownerBit, hcb]
            rw [hbit, hbitn] at hset
            obtain ⟨hds, hdw, hdk, hdl⟩ := DecrSharedCount_weak0 b hwk
            have heq : ownersB (listSet w.handles i none) = b.shared_cnt_ - 1 := by
              omega
            refine ⟨b.DecrSharedCount, rfl, hdw, ?_, ?_⟩
            · rw [hds, heq]
            · rw [hdl, heq]
              by_cases hz : b.shared_cnt_ - 1 = 0
              · rw [if_pos hz, if_pos hz, hlog, if_neg (by omega)]
                rfl
              · rw [if_neg hz, if_neg hz, hlog, if_neg (by omega)]
  | reset i =>
    cases hget : listGet w.handles i with
    | none => simp [World.step, hget] at hs
    | some s =>
      cases s with
      | none => simp [World.step, hget] at hs
      | some sp =>
        cases hdes : SharedPtr.destruct w.heap sp with
        | none => simp [World.step, hget, hdes] at hs
        | some h1 =>
          simp [World.step, hget, hdes] at hs
          subst hs
          rw [hheap] at hdes
          have hset := ownersB_set w.handles i (some SharedPtr.mkEmpty) (some sp) hget
          have hbitn : ownerBit (some SharedPtr.mkEmpty) = 0 := by
            simp [ownerBit, SharedPtr.mkEmpty]
          rcases destruct_singleton b sp h1 hdes with ⟨hcb, hh1⟩ | ⟨hcb, hh1⟩
          · subst hh1
            have hbit : ownerBit (some sp) = 0 := by simp [ownerBit, hcb]
            have heq : ownersB (listSet w.handles i (some SharedPtr.mkEmpty)) =
                ownersB w.handles := by omega
            exact ⟨b, rfl, hwk, by rw [hcnt, heq], by rw [heq]; exact hlog⟩
          · subst hh1
            have hbit : ownerBit (some sp) = 1 := by simp [ownerBit, hcb]
            rw [hbit, hbitn] at hset
            obtain ⟨hds, hdw, hdk, hdl⟩ := DecrSharedCount_weak0 b hwk
            have heq : ownersB (listSet w.handles i (some SharedPtr.mkEmpty)) =
                b.shared_cnt_ - 1 := by omega
            refine ⟨b.DecrSharedCount, rfl, hdw, ?_, ?_⟩
            · rw [hds, heq]
            · rw [hdl, heq]
              by_cases hz : b.shared_cnt_ - 1 = 0
              · rw [if_pos hz, if_pos hz, hlog, if_neg (by omega)]
                rfl
              · rw [if_neg hz, if_neg hz, hlog, if_neg (by omega)]
  | assign dst src =>
    cases hgs : listGet w.handles src with
    | none => simp [World.step, hgs] at hs
    | some so =>
      cases so with
      | none => simp [World.step, hgs] at hs
      | some other =>
        cases hcopy : SharedPtr.copy w.heap other with
        | none => simp [World.step, hgs, hcopy] at hs
        | some res =>
          obtain ⟨temp, h1⟩ := res
          cases hgd : listGet w.handles dst with
          | none => simp [World.step, hgs, hcopy, hgd] at hs
          | some dv =>
            cases dv with
            | none => simp [World.step, hgs, hcopy, hgd] at hs
            | some oldDst =>
              cases hdes : SharedPtr.destruct h1 oldDst with
              | none => simp [World.step, hgs, hcopy, hgd, hdes] at hs
              | some h2 =>
                simp [World.step, hgs, hcopy, hgd, hdes] at hs
                subst hs
                rw [hheap] at hcopy
                rcases copy_singleton b other _ hcopy with ⟨hrawo, hres⟩ | ⟨hrawo, hcbo, hres⟩
                · injection hres with hc hh1
                  subst hc; subst hh1
                  have hsetd := ownersB_set w.handles dst
                    (some SharedPtr.mkEmpty) (some oldDst) hgd
                  have hbt : ownerBit (some SharedPtr.mkEmpty) = 0 := by
                    simp [ownerBit, SharedPtr.mkEmpty]
                  rcases destruct_singleton b oldDst h2 hdes with ⟨hcbd, hh2⟩ | ⟨hcbd, hh2⟩
                  · subst hh2
                    have hbd : ownerBit (some oldDst) = 0 := by simp [ownerBit, hcbd]
                    have heq : ownersB (listSet w.handles dst (some SharedPtr.mkEmpty)) =
                        ownersB w.handles := by omega
                    exact ⟨b, rfl, hwk, by rw [hcnt, heq], by rw [heq]; exact hlog⟩
                  · subst hh2
                    have hbd : ownerBit (some oldDst) = 1 := by simp [ownerBit, hcbd]
                    rw [hbd, hbt] at hsetd
                    obtain ⟨hds, hdw, hdk, hdl⟩ := DecrSharedCount_weak0 b hwk
                    have heq : ownersB (listSet w.handles dst (some SharedPtr.mkEmpty)) =
                        b.shared_cnt_ - 1 := by omega
                    refine ⟨b.DecrSharedCount, rfl, hdw, ?_, ?_⟩
                    · rw [hds, heq]
                    · rw [hdl, heq]
                      by_cases hz : b.shared_cnt_ - 1 = 0
                      · rw [if_pos hz, if_pos hz, hlog, if_neg (by omega)]
                        rfl
                      · rw [if_neg hz, if_neg hz, hlog, if_neg (by omega)]
                · injection hres with hc hh1
                  subst hc; subst hh1
                  have hbo : ownerBit (some other) = 1 := by simp [ownerBit, hcbo]
                  have hgeo := ownerBit_le_ownersB w.handles src (some other) hgs
                  rw [hbo] at hgeo
                  have hsetd := ownersB_set w.handles dst
                    (some ⟨some 0, other.raw_ptr_⟩) (some oldDst) hgd
                  have hbt : ownerBit (some (⟨some 0, other.raw_ptr_⟩ : SharedPtr)) = 1 := by
                    simp [ownerBit]
                  rcases destruct_singleton b.IncrSharedCount oldDst h2 hdes with
                    ⟨hcbd, hh2⟩ | ⟨hcbd, hh2⟩
                  · subst hh2
                    have hbd : ownerBit (some oldDst) = 0 := by simp [ownerBit, hcbd]
                    rw [hbd, hbt] at hsetd
                    have heq : ownersB (listSet w.handles dst
                        (some ⟨some 0, other.raw_ptr_⟩)) = ownersB w.handles + 1 := by
                      omega
                    refine ⟨b.IncrSharedCount, rfl, ?_, ?_, ?_⟩
                    · simpa [CtrlBlock.IncrSharedCount] using hwk
                    · simp only [CtrlBlock.IncrSharedCount]
                      rw [heq, hcnt]
                    · simp only [CtrlBlock.IncrSharedCount]
                      rw [heq, hlog, if_neg (by omega), if_neg (by omega)]
                  · subst hh2
                    have hbd : ownerBit (some oldDst) = 1 := by simp [ownerBit, hcbd]
                    rw [hbd, hbt] at hsetd
                    have hwk1 : b.IncrSharedCount.weak_cnt_ = 0 := by
                      simpa [CtrlBlock.IncrSharedCount] using hwk
                    obtain ⟨hds, hdw, hdk, hdl⟩ := DecrSharedCount_weak0 b.IncrSharedCount hwk1
                    have hsh1 : b.IncrSharedCount.shared_cnt_ = b.shared_cnt_ + 1 := rfl
                    have heq : ownersB (listSet w.handles dst
                        (some ⟨some 0, other.raw_ptr_⟩)) = ownersB w.handles := by
                      omega
                    refine ⟨b.IncrSharedCount.DecrSharedCount, rfl, hdw, ?_, ?_⟩
                    · rw [hds, hsh1, heq, hcnt]
                      omega
                    · have hl1 : b.IncrSharedCount.log = b.log := rfl
                      have hne : b.IncrSharedCount.shared_cnt_ - 1 ≠ 0 := by
                        rw [hsh1, hcnt]
                        omega
                      rw [hdl, if_neg hne, hl1, hlog, if_neg (by omega), heq,
                        if_neg (by omega)]
  | moveAssign dst src =>
    cases hgs : listGet w.handles src with
    | none => simp [World.step, hgs] at hs
    | some so =>
      cases so with
      | none => simp [World.step, hgs] at hs
      | some other =>
        cases hgd : listGet (listSet w.handles src (some SharedPtr.mkEmpty)) dst with
        | none => simp [World.step, hgs, hgd] at hs
        | some dv =>
          cases dv with
          | none => simp [World.step, hgs, hgd] at hs
          | some oldDst =>
            cases hdes : SharedPtr.destruct w.heap oldDst with
            | none => simp [World.step, hgs, hgd, hdes] at hs
            | some h2 =>
              simp [World.step, hgs, hgd, hdes] at hs
              subst hs
              rw [hheap] at hdes
              have hbem : ownerBit (some SharedPtr.mkEmpty) = 0 := by
                simp [ownerBit, SharedPtr.mkEmpty]
              have hset1 := ownersB_set w.handles src
                (some SharedPtr.mkEmpty) (some other) hgs
              rw [hbem] at hset1
              have hset2 := ownersB_set (listSet w.handles src (some SharedPtr.mkEmpty)) dst
                (some other) (some oldDst) hgd
              rcases destruct_singleton b oldDst h2 hdes with ⟨hcbd, hh2⟩ | ⟨hcbd, hh2⟩
              · subst hh2
                have hbd : ownerBit (some oldDst) = 0 := by simp [ownerBit, hcbd]
                rw [hbd] at hset2
                have heq : ownersB (listSet (listSet w.handles src (some SharedPtr.mkEmpty))
                    dst (some other)) = ownersB w.handles := by omega
                exact ⟨b, rfl, hwk, by rw [hcnt, heq], by rw [heq]; exact hlog⟩
              · subst hh2
                have hbd : ownerBit (some oldDst) = 1 := by simp [ownerBit, hcbd]
                rw [hbd] at hset2
                obtain ⟨hds, hdw, hdk, hdl⟩ := DecrSharedCount_weak0 b hwk
                have heq : ownersB (listSet (listSet w.handles src (some SharedPtr.mkEmpty))
                    dst (some other)) = b.shared_cnt_ - 1 := by omega
                refine ⟨b.DecrSharedCount, rfl, hdw, ?_, ?_⟩
                · rw [hds, heq]
                · rw [hdl, heq]
                  by_cases hz : b.shared_cnt_ - 1 = 0
                  · rw [if_pos hz, if_pos hz, hlog, if_neg (by omega)]
                    rfl
                  · rw [if_neg hz, if_neg hz, hlog, if_neg (by omega)]

theorem run_preserves_InvC1 (ops : List Op) (w w' : World)
    (hw : InvC1 w) (hr : w.run ops = some w') : InvC1 w' := by
  induction ops generalizing w with
  | nil =>
    simp [World.run] at hr
    subst hr
    exact hw
  | cons op rest ih =>
    unfold World.run at hr
    cases hstep : w.step op with
    | none =>
      rw [hstep] at hr
      simp at hr
    | some w1 =>
      rw [hstep] at hr
      exact ih w1 (step_preserves_InvC1 w w1 op hw hstep) hr

theorem startWorld_InvC1 (k : InitKind) : InvC1 (startWorld k) := by
  cases k with
  | rawInit a =>
    refine ⟨⟨CBKind.ptrBlock (some (Addr.heapObj a)), 0, 1, []⟩, rfl, rfl, ?_, ?_⟩ <;>
      simp [startWorld, ownersB, ownerBit, SharedPtr.fromRaw]
  | msInit =>
    refine ⟨⟨CBKind.msBlock, 0, 1, []⟩, rfl, rfl, ?_, ?_⟩ <;>
      simp [startWorld, ownersB, ownerBit, MakeShared]

/-- C1: starting from one owned object (created by raw-pointer
construction or `MakeShared`), after any valid sequence of `SharedPtr`
operations (default/copy/move/aliasing construction, destruction,
`Reset`, copy and move assignment) the payload destructor has run
exactly once if the control block's shared count is 0 — i.e. at the
moment the last strong owner was destroyed — and has not run at all
while the shared count is still positive.  Since this holds after every
valid operation sequence, in particular it holds at every prefix of a
run, so the destructor fires exactly at the decrement that reaches 0
and never again afterwards. -/
theorem C1_payload_destructor_runs_once (k : InitKind) (ops : List Op) (w : World)
    (h : World.run (startWorld k) ops = some w) :
    ∃ b, w.heap = [b] ∧
      payloadDtorRuns b = (if b.shared_cnt_ = 0 then 1 else 0) := by
  obtain ⟨b, hheap, hwk, hcnt, hlog⟩ :=
    run_preserves_InvC1 ops (startWorld k) w (startWorld_InvC1 k) h
  refine ⟨b, hheap, ?_⟩
  rw [payloadDtorRuns, hlog, hcnt]
  by_cases h0 : ownersB w.handles = 0
  · rw [if_pos h0, if_pos h0]
    decide
  · rw [if_neg h0, if_neg h0]
    decide

theorem C1_payload_destructor_runs_once_witness :
    (World.run (startWorld (InitKind.rawInit 5)) [Op.mkCopy 0, Op.destroy 0, Op.destroy 1] =
      some ⟨[⟨CBKind.ptrBlock (some (Addr.heapObj 5)), 0, 0,
        [CBEvent.destroyPayload, CBEvent.destroySelf]⟩], [none, none]⟩) ∧
    (∃ b, (⟨[⟨CBKind.ptrBlock (some (Addr.heapObj 5)), 0, 0,
        [CBEvent.destroyPayload, CBEvent.destroySelf]⟩], [none, none]⟩ : World).heap = [b] ∧
      payloadDtorRuns b = (if b.shared_cnt_ = 0 then 1 else 0)) :=
  ⟨by decide, C1_payload_destructor_runs_once (InitKind.rawInit 5)
    [Op.mkCopy 0, Op.destroy 0, Op.destroy 1] _ (by decide)⟩

/-- The claimed handle invariant of the spec: `control_block == nullptr
⇔ raw_pointer == nullptr`. -/
def handleInv (sp : SharedPtr) : Prop :=
  sp.p_ctrl_block_ = none ↔ sp.raw_ptr_ = none

/-- The handles the public constructors and operations can produce.
Default and `nullptr` construction, `Reset()` and the moved-from state
produce the empty handle; `Reset(ptr)` produces the raw-pointer
constructor's handle; the assignment operators produce copy- or
move-constructed values, so every assigned handle is also covered. -/
inductive Produced : SharedPtr → Prop where
  | empty : Produced SharedPtr.mkEmpty
  | fromRaw (h : Heap) (ptr : Option Addr) : Produced (SharedPtr.fromRaw h ptr).1
  | makeShared (h : Heap) : Produced (MakeShared h).1
  | copy (h : Heap) (other sp : SharedPtr) (h1 : Heap) :
      Produced other → SharedPtr.copy h other = some (sp, h1) → Produced sp
  | moveNew (other : SharedPtr) : Produced other → Produced (SharedPtr.move other).1
  | moveSrc (other : SharedPtr) : Produced (SharedPtr.move other).2
  | aliased (h : Heap) (other : SharedPtr) (ptr : Option Addr) (sp : SharedPtr) (h1 : Heap) :
      Produced other → SharedPtr.aliasCtor h other ptr = some (sp, h1) → Produced sp

/-- C2 counterexample: constructing a `SharedPtr` from a null raw
pointer (`explicit SharedPtr(T* ptr)` with `ptr == nullptr`) allocates
a control block, producing a handle with a non-null `p_ctrl_block_` and
a null `raw_ptr_`, so the claimed invariant `control_block == nullptr ⇔
raw_pointer == nullptr` fails. -/
theorem C2_invariant_counterexample :
    ¬ handleInv (SharedPtr.fromRaw [] none).1 := by
  simp [handleInv, SharedPtr.fromRaw]

/-- C2 (amended): every handle produced by the public constructors and
operations satisfies only the forward direction of the claimed
invariant — a null control-block pointer implies a null raw pointer
(equivalently, a handle exposing a non-null pointer always has a control
block).  The converse direction fails: raw-pointer construction from a
null pointer, and aliasing construction with a null pointer, give a
null raw pointer with a non-null control block. -/
theorem C2_null_cb_implies_null_raw (sp : SharedPtr) (hp : Produced sp)
    (hcb : sp.p_ctrl_block_ = none) : sp.raw_ptr_ = none := by
  induction hp with
  | empty => rfl
  | fromRaw h ptr => simp [SharedPtr.fromRaw] at hcb
  | makeShared h => simp [MakeShared] at hcb
  | copy h other sp h1 hprod heq ih =>
    by_cases hraw : other.raw_ptr_ = none
    · have : sp = SharedPtr.mkEmpty := by
        simp [SharedPtr.copy, SharedPtr.toBool, SharedPtr.Get, hraw] at heq
        exact heq.1.symm
      rw [this]
      rfl
    · cases hco : other.p_ctrl_block_ with
      | none => simp [SharedPtr.copy, SharedPtr.toBool, SharedPtr.Get, hraw, hco] at heq
      | some i =>
        cases hg : listGet h i with
        | none => simp [SharedPtr.copy, SharedPtr.toBool, SharedPtr.Get, hraw, hco, hg] at heq
        | some b =>
          have : sp = ⟨some i, other.raw_ptr_⟩ := by
            simp [SharedPtr.copy, SharedPtr.toBool, SharedPtr.Get, hraw, hco, hg] at heq
            exact heq.1.symm
          rw [this] at hcb
          simp at hcb
  | moveNew other hprod ih =>
    simp [SharedPtr.move] at hcb ⊢
    exact ih hcb
  | moveSrc other => rfl
  | aliased h other ptr sp h1 hprod heq ih =>
    cases hco : other.p_ctrl_block_ with
    | none => simp [SharedPtr.aliasCtor, hco] at heq
    | some i =>
      cases hg : listGet h i with
      | none => simp [SharedPtr.aliasCtor, hco, hg] at heq
      | some b =>
        have : sp = ⟨some i, ptr⟩ := by
          simp [SharedPtr.aliasCtor, hco, hg] at heq
          exact heq.1.symm
        rw [this] at hcb
        simp at hcb

theorem C2_null_cb_implies_null_raw_witness :
    Produced SharedPtr.mkEmpty ∧ SharedPtr.mkEmpty.p_ctrl_block_ = none ∧
      SharedPtr.mkEmpty.raw_ptr_ = none :=
  ⟨Produced.empty, rfl, C2_null_cb_implies_null_raw SharedPtr.mkEmpty Produced.empty rfl⟩

/-- The program state after `n` copies of a single fresh owner: one
control block with shared count `n + 1`, and `n + 1` live handles all
referencing it. -/
def c3world (kd : CBKind) (r : Addr) (n : Nat) : World :=
  ⟨[⟨kd, 0, n + 1, []⟩], List.replicate (n + 1) (some ⟨some 0, some r⟩)⟩

theorem c3world_step (kd : CBKind) (r : Addr) (n : Nat) :
    (c3world kd r n).step (Op.mkCopy 0) = some (c3world kd r (n + 1)) := by
  have hget : listGet (List.replicate (n + 1) (some (⟨some 0, some r⟩ : SharedPtr))) 0 =
      some (some ⟨some 0, some r⟩) := by
    rw [List.replicate_succ]
    rfl
  simp [World.step, c3world, hget, SharedPtr.copy, SharedPtr.toBool, SharedPtr.Get,
    listGet, listSet, CtrlBlock.IncrSharedCount]
  rw [← List.replicate_succ']

theorem c3world_run (kd : CBKind) (r : Addr) (m n : Nat) :
    (c3world kd r m).run (List.replicate n (Op.mkCopy 0)) = some (c3world kd r (m + n)) := by
  induction n generalizing m with
  | zero => simp [World.run]
  | succ k ih =>
    rw [List.replicate_succ]
    unfold World.run
    rw [c3world_step]
    have h1 := ih (m + 1)
    have h2 : m + 1 + k = m + (k + 1) := by omega
    rw [h2] at h1
    exact h1

/-- C3 counterexample: the claim quantifies over every handle, but for
the default-constructed (empty) handle `h` with `n = 1` copy made of it
(the copy of an empty handle is empty and touches no control block),
`h.UseCount()` is 0, not `n + 1 = 2`. -/
theorem C3_usecount_counterexample :
    World.run ⟨[], [some SharedPtr.mkEmpty]⟩ [Op.mkCopy 0] =
      some ⟨[], [some SharedPtr.mkEmpty, some SharedPtr.mkEmpty]⟩ ∧
    SharedPtr.UseCount [] SharedPtr.mkEmpty ≠ some (1 + 1) := by
  constructor
  · decide
  · decide

/-- C3 (amended): for every handle that is the sole fresh owner of an
object — produced by raw-pointer construction from a non-null pointer
or by `MakeShared`, so `UseCount() = 1` — after making `n` copies of
it, all of which remain alive (as does the original), the original's
`UseCount()` equals `n + 1`.  The claim's quantification over *every*
handle fails for handles that do not solely own an object (empty
handles, null-raw-pointer handles, handles already shared). -/
theorem C3_usecount_after_n_copies (k : InitKind) (n : Nat) :
    ∃ w sp, World.run (startWorld k) (List.replicate n (Op.mkCopy 0)) = some w ∧
      listGet w.handles 0 = some (some sp) ∧ sp.UseCount w.heap = some (n + 1) := by
  cases k with
  | rawInit a =>
    refine ⟨c3world (CBKind.ptrBlock (some (Addr.heapObj a))) (Addr.heapObj a) n,
      ⟨some 0, some (Addr.heapObj a)⟩, ?_, ?_, ?_⟩
    · have := c3world_run (CBKind.ptrBlock (some (Addr.heapObj a))) (Addr.heapObj a) 0 n
      simpa [startWorld, SharedPtr.fromRaw] using this
    · show listGet (List.replicate (n + 1) _) 0 = _
      rw [List.replicate_succ]
      rfl
    · rfl
  | msInit =>
    refine ⟨c3world CBKind.msBlock (Addr.inlineObj 0) n,
      ⟨some 0, some (Addr.inlineObj 0)⟩, ?_, ?_, ?_⟩
    · have := c3world_run CBKind.msBlock (Addr.inlineObj 0) 0 n
      simpa [startWorld, MakeShared] using this
    · show listGet (List.replicate (n + 1) _) 0 = _
      rw [List.replicate_succ]
      rfl
    · rfl

/-- C4: for every control block with `shared_cnt_ > 0`, `DecrSharedCount`
decrements the shared count by one; if the count thereby reaches 0 the
destroy-payload operation (`OnZeroShared`) is invoked; and if both
counters are then 0, destroy-self (`OnZeroWeak`) is additionally
invoked after it — the event log shows the order. -/
theorem C4_DecrementShared_spec (b : CtrlBlock) (h : 0 < b.shared_cnt_) :
    b.DecrSharedCount.shared_cnt_ = b.shared_cnt_ - 1 ∧
    (b.shared_cnt_ - 1 ≠ 0 → b.DecrSharedCount.log = b.log) ∧
    (b.shared_cnt_ - 1 = 0 → 0 < b.weak_cnt_ →
      b.DecrSharedCount.log = b.log ++ [CBEvent.destroyPayload]) ∧
    (b.shared_cnt_ - 1 = 0 → b.weak_cnt_ = 0 →
      b.DecrSharedCount.log = b.log ++ [CBEvent.destroyPayload, CBEvent.destroySelf]) := by
  by_cases h0 : b.shared_cnt_ - 1 = 0 <;> by_cases hw : b.weak_cnt_ = 0 <;>
    simp [CtrlBlock.DecrSharedCount, CtrlBlock.OnZeroShared, CtrlBlock.OnZeroWeak, h0, hw]

theorem C4_DecrementShared_spec_witness :
    0 < (⟨CBKind.msBlock, 0, 1, []⟩ : CtrlBlock).shared_cnt_ ∧
    ((⟨CBKind.msBlock, 0, 1, []⟩ : CtrlBlock).DecrSharedCount.shared_cnt_ =
        (⟨CBKind.msBlock, 0, 1, []⟩ : CtrlBlock).shared_cnt_ - 1 ∧
      ((⟨CBKind.msBlock, 0, 1, []⟩ : CtrlBlock).shared_cnt_ - 1 ≠ 0 →
        (⟨CBKind.msBlock, 0, 1, []⟩ : CtrlBlock).DecrSharedCount.log =
          (⟨CBKind.msBlock, 0, 1, []⟩ : CtrlBlock).log) ∧
      ((⟨CBKind.msBlock, 0, 1, []⟩ : CtrlBlock).shared_cnt_ - 1 = 0 →
        0 < (⟨CBKind.msBlock, 0, 1, []⟩ : CtrlBlock).weak_cnt_ →
        (⟨CBKind.msBlock, 0, 1, []⟩ : CtrlBlock).DecrSharedCount.log =
          (⟨CBKind.msBlock, 0, 1, []⟩ : CtrlBlock).log ++ [CBEvent.destroyPayload]) ∧
      ((⟨CBKind.msBlock, 0, 1, []⟩ : CtrlBlock).shared_cnt_ - 1 = 0 →
        (⟨CBKind.msBlock, 0, 1, []⟩ : CtrlBlock).weak_cnt_ = 0 →
        (⟨CBKind.msBlock, 0, 1, []⟩ : CtrlBlock).DecrSharedCount.log =
          (⟨CBKind.msBlock, 0, 1, []⟩ : CtrlBlock).log ++
            [CBEvent.destroyPayload, CBEvent.destroySelf])) :=
  ⟨by decide, C4_DecrementShared_spec ⟨CBKind.msBlock, 0, 1, []⟩ (by decide)⟩

/-- C5: `MakeShared` performs exactly one heap allocation (the
`ControlBlockMakeShared` block, which embeds storage for `T`), places
the object inside that block's storage (the handle's raw pointer is the
inline-storage address of the freshly allocated block), and the
returned handle's `UseCount()` is 1. -/
theorem C5_MakeShared_spec (h : Heap) :
    (MakeShared h).2.length = h.length + 1 ∧
    (MakeShared h).1.raw_ptr_ = some (Addr.inlineObj h.length) ∧
    (MakeShared h).1.p_ctrl_block_ = some h.length ∧
    listGet (MakeShared h).2 h.length = some ⟨CBKind.msBlock, 0, 1, []⟩ ∧
    SharedPtr.UseCount (MakeShared h).2 (MakeShared h).1 = some 1 := by
  refine ⟨by simp [MakeShared], rfl, rfl, ?_, ?_⟩
  · exact listGet_append_length h _
  · have hg := listGet_append_length h (⟨CBKind.msBlock, 0, 1, []⟩ : CtrlBlock)
    simp [SharedPtr.UseCount, MakeShared, hg, CtrlBlock.GetSharedCount]

/-- C6: for every live non-empty handle `A` (slot 0; non-null raw
pointer, control block `ci` holding block `b` with positive shared
count) and every pointer `P`, the aliasing constructor yields a handle
whose `Get()` returns `P` and whose `UseCount()` is `A`'s control
block's shared count (`A`'s previous count plus one); subsequently
destroying `A` while the alias lives leaves the block's shared count at
its original positive value and appends no destruction event — the
payload destructor does not run. -/
theorem C6_aliasing_spec (w : World) (A : SharedPtr) (P : Option Addr)
    (ci : Nat) (b : CtrlBlock)
    (hA : listGet w.handles 0 = some (some A))
    (hraw : A.raw_ptr_ ≠ none)
    (hcb : A.p_ctrl_block_ = some ci)
    (hb : listGet w.heap ci = some b)
    (hpos : 0 < b.shared_cnt_) :
    ∃ w1 w2,
      w.step (Op.mkAlias 0 P) = some w1 ∧
      listGet w1.handles w.handles.length = some (some ⟨some ci, P⟩) ∧
      (⟨some ci, P⟩ : SharedPtr).Get = P ∧
      SharedPtr.UseCount w1.heap ⟨some ci, P⟩ = some (b.shared_cnt_ + 1) ∧
      w1.step (Op.destroy 0) = some w2 ∧
      listGet w2.heap ci = some b ∧
      0 < b.shared_cnt_ := by
  have hd : b.IncrSharedCount.DecrSharedCount = b := by
    have h0 : ¬ (b.shared_cnt_ = 0) := by omega
    simp [CtrlBlock.DecrSharedCount, CtrlBlock.IncrSharedCount, h0]
  refine ⟨⟨listSet w.heap ci b.IncrSharedCount, w.handles ++ [some ⟨some ci, P⟩]⟩,
    ⟨listSet (listSet w.heap ci b.IncrSharedCount) ci b.IncrSharedCount.DecrSharedCount,
      listSet (w.handles ++ [some ⟨some ci, P⟩]) 0 none⟩, ?_, ?_, rfl, ?_, ?_, ?_, hpos⟩
  · simp [World.step, hA, SharedPtr.aliasCtor, hcb, hb]
  · exact listGet_append_length w.handles _
  · have hg := listGet_set_self w.heap ci b.IncrSharedCount b hb
    simp only [SharedPtr.UseCount]
    rw [hg]
    simp [CtrlBlock.GetSharedCount, CtrlBlock.IncrSharedCount]
  · have hA1 : listGet (w.handles ++ [some (⟨some ci, P⟩ : SharedPtr)]) 0 = some (some A) :=
      listGet_append_left w.handles _ 0 (some A) hA
    have hg := listGet_set_self w.heap ci b.IncrSharedCount b hb
    simp [World.step, hA1, SharedPtr.destruct, hcb, hg]
  · rw [listSet_set_self, hd]
    exact listGet_set_self w.heap ci b b hb

theorem C6_aliasing_spec_witness :
    0 < (⟨CBKind.ptrBlock (some (Addr.heapObj 3)), 0, 1, []⟩ : CtrlBlock).shared_cnt_ ∧
    (∃ w1 w2,
      World.step ⟨[⟨CBKind.ptrBlock (some (Addr.heapObj 3)), 0, 1, []⟩],
          [some ⟨some 0, some (Addr.heapObj 3)⟩]⟩
        (Op.mkAlias 0 (some (Addr.heapObj 9))) = some w1 ∧
      listGet w1.handles
        (List.length [some (⟨some 0, some (Addr.heapObj 3)⟩ : SharedPtr)]) =
        some (some ⟨some 0, some (Addr.heapObj 9)⟩) ∧
      (⟨some 0, some (Addr.heapObj 9)⟩ : SharedPtr).Get = some (Addr.heapObj 9) ∧
      SharedPtr.UseCount w1.heap ⟨some 0, some (Addr.heapObj 9)⟩ =
        some ((⟨CBKind.ptrBlock (some (Addr.heapObj 3)), 0, 1, []⟩ : CtrlBlock).shared_cnt_ + 1) ∧
      w1.step (Op.destroy 0) = some w2 ∧
      listGet w2.heap 0 = some ⟨CBKind.ptrBlock (some (Addr.heapObj 3)), 0, 1, []⟩ ∧
      0 < (⟨CBKind.ptrBlock (some (Addr.heapObj 3)), 0, 1, []⟩ : CtrlBlock).shared_cnt_) :=
  ⟨by decide, C6_aliasing_spec
    ⟨[⟨CBKind.ptrBlock (some (Addr.heapObj 3)), 0, 1, []⟩],
      [some ⟨some 0, some (Addr.heapObj 3)⟩]⟩
    ⟨some 0, some (Addr.heapObj 3)⟩ (some (Addr.heapObj 9)) 0
    ⟨CBKind.ptrBlock (some (Addr.heapObj 3)), 0, 1, []⟩
    rfl (by decide) rfl rfl (by decide)⟩

/-- C7 counterexample: move assignment does not always empty the source.
Self-move-assignment (`h = std::move(h)`) on a live owning handle goes
through `SharedPtr(std::move(other)).Swap(*this)`: the temporary takes
the fields and empties the handle, the swap puts them back, and the
temporary (now empty) destructs as a no-op — so the source handle ends
up unchanged and non-empty, refuting "always leaves the source handle
empty". -/
theorem C7_self_move_counterexample :
    World.step ⟨[⟨CBKind.ptrBlock (some (Addr.heapObj 0)), 0, 1, []⟩],
        [some ⟨some 0, some (Addr.heapObj 0)⟩]⟩ (Op.moveAssign 0 0) =
      some ⟨[⟨CBKind.ptrBlock (some (Addr.heapObj 0)), 0, 1, []⟩],
        [some ⟨some 0, some (Addr.heapObj 0)⟩]⟩ ∧
    (⟨some 0, some (Addr.heapObj 0)⟩ : SharedPtr) ≠ SharedPtr.mkEmpty := by
  constructor
  · decide
  · decide

/-- C7 (amended): move construction always leaves the heap — and hence
every `UseCount()` — unchanged, empties the source slot and transfers
the handle's fields.  Move assignment empties the source and leaves the
moved object's `UseCount()` unchanged provided source and destination
are distinct handles and the destination does not share the source's
control block.  (Self-move-assignment instead leaves the handle
unchanged, and move-assigning onto a handle of the same control block
lowers the count by one when the destination releases its old
ownership.) -/
theorem C7_move_spec (w w' : World) (src dst : Nat) (sps spd : SharedPtr)
    (hs : listGet w.handles src = some (some sps))
    (hd : listGet w.handles dst = some (some spd))
    (hne : src ≠ dst)
    (hcb : spd.p_ctrl_block_ ≠ sps.p_ctrl_block_ ∨ spd.p_ctrl_block_ = none)
    (hstep : w.step (Op.moveAssign dst src) = some w') :
    w.step (Op.mkMove src) =
      some ⟨w.heap, listSet w.handles src (some SharedPtr.mkEmpty) ++ [some sps]⟩ ∧
    listGet w'.handles src = some (some SharedPtr.mkEmpty) ∧
    listGet w'.handles dst = some (some sps) ∧
    SharedPtr.UseCount w'.heap sps = SharedPtr.UseCount w.heap sps := by
  have hgd1 : listGet (listSet w.handles src (some SharedPtr.mkEmpty)) dst =
      some (some spd) := by
    rw [listGet_set_ne w.handles src dst (some SharedPtr.mkEmpty) hne]
    exact hd
  cases hdes : SharedPtr.destruct w.heap spd with
  | none => simp [World.step, hs, hgd1, hdes] at hstep
  | some h2 =>
    simp [World.step, hs, hgd1, hdes] at hstep
    subst hstep
    refine ⟨by simp [World.step, hs, SharedPtr.move, SharedPtr.mkEmpty], ?_, ?_, ?_⟩
    · rw [listGet_set_ne _ dst src (some sps) (by omega)]
      exact listGet_set_self w.handles src (some SharedPtr.mkEmpty) (some sps) hs
    · exact listGet_set_self _ dst (some sps) (some spd) hgd1
    · cases hco : sps.p_ctrl_block_ with
      | none => simp [SharedPtr.UseCount, hco]
      | some i =>
        cases hcd : spd.p_ctrl_block_ with
        | none =>
          have hh : h2 = w.heap := by
            have := hdes
            simp [SharedPtr.destruct, hcd] at this
            exact this.symm
          rw [hh]
        | some j =>
          have hji : j ≠ i := by
            rcases hcb with hcb1 | hcb1
            · intro hji
              apply hcb1
              rw [hcd, hco, hji]
            · rw [hcd] at hcb1
              cases hcb1
          cases hg : listGet w.heap j with
          | none => simp [SharedPtr.destruct, hcd, hg] at hdes
          | some bj =>
            have hh : h2 = listSet w.heap j bj.DecrSharedCount := by
              have := hdes
              simp [SharedPtr.destruct, hcd, hg] at this
              exact this.symm
            rw [hh]
            simp only [SharedPtr.UseCount, hco]
            rw [listGet_set_ne w.heap j i bj.DecrSharedCount hji]

theorem C7_move_spec_witness :
    (0 : Nat) ≠ 1 ∧
    (World.step ⟨[⟨CBKind.ptrBlock (some (Addr.heapObj 1)), 0, 1, []⟩,
          ⟨CBKind.ptrBlock (some (Addr.heapObj 2)), 0, 1, []⟩],
        [some ⟨some 0, some (Addr.heapObj 1)⟩, some ⟨some 1, some (Addr.heapObj 2)⟩]⟩
        (Op.mkMove 0) =
      some ⟨[⟨CBKind.ptrBlock (some (Addr.heapObj 1)), 0, 1, []⟩,
          ⟨CBKind.ptrBlock (some (Addr.heapObj 2)), 0, 1, []⟩],
        listSet [some ⟨some 0, some (Addr.heapObj 1)⟩, some ⟨some 1, some (Addr.heapObj 2)⟩]
          0 (some SharedPtr.mkEmpty) ++ [some ⟨some 0, some (Addr.heapObj 1)⟩]⟩ ∧
    listGet (⟨[⟨CBKind.ptrBlock (some (Addr.heapObj 1)), 0, 1, []⟩,
          ⟨CBKind.ptrBlock (some (Addr.heapObj 2)), 0, 0,
            [CBEvent.destroyPayload, CBEvent.destroySelf]⟩],
        [some SharedPtr.mkEmpty, some ⟨some 0, some (Addr.heapObj 1)⟩]⟩ : World).handles 0 =
      some (some SharedPtr.mkEmpty) ∧
    listGet (⟨[⟨CBKind.ptrBlock (some (Addr.heapObj 1)), 0, 1, []⟩,
          ⟨CBKind.ptrBlock (some (Addr.heapObj 2)), 0, 0,
            [CBEvent.destroyPayload, CBEvent.destroySelf]⟩],
        [some SharedPtr.mkEmpty, some ⟨some 0, some (Addr.heapObj 1)⟩]⟩ : World).handles 1 =
      some (some ⟨some 0, some (Addr.heapObj 1)⟩) ∧
    SharedPtr.UseCount (⟨[⟨CBKind.ptrBlock (some (Addr.heapObj 1)), 0, 1, []⟩,
          ⟨CBKind.ptrBlock (some (Addr.heapObj 2)), 0, 0,
            [CBEvent.destroyPayload, CBEvent.destroySelf]⟩],
        [some SharedPtr.mkEmpty, some ⟨some 0, some (Addr.heapObj 1)⟩]⟩ : World).heap
        ⟨some 0, some (Addr.heapObj 1)⟩ =
      SharedPtr.UseCount [⟨CBKind.ptrBlock (some (Addr.heapObj 1)), 0, 1, []⟩,
          ⟨CBKind.ptrBlock (some (Addr.heapObj 2)), 0, 1, []⟩]
        ⟨some 0, some (Addr.heapObj 1)⟩) :=
  ⟨by decide, C7_move_spec
    ⟨[⟨CBKind.ptrBlock (some (Addr.heapObj 1)), 0, 1, []⟩,
        ⟨CBKind.ptrBlock (some (Addr.heapObj 2)), 0, 1, []⟩],
      [some ⟨some 0, some (Addr.heapObj 1)⟩, some ⟨some 1, some (Addr.heapObj 2)⟩]⟩
    ⟨[⟨CBKind.ptrBlock (some (Addr.heapObj 1)), 0, 1, []⟩,
        ⟨CBKind.ptrBlock (some (Addr.heapObj 2)), 0, 0,
          [CBEvent.destroyPayload, CBEvent.destroySelf]⟩],
      [some SharedPtr.mkEmpty, some ⟨some 0, some (Addr.heapObj 1)⟩]⟩
    0 1 ⟨some 0, some (Addr.heapObj 1)⟩ ⟨some 1, some (Addr.heapObj 2)⟩
    rfl rfl (by decide) (Or.inl (by decide)) (by decide)⟩

/-- C8: what the code actually does when `T`'s constructor throws during
the placement construction inside `MakeShared` (demonstrated on the
empty heap).  The exception propagates (no handle is produced), and
during stack unwinding the destructor of the fully constructed local
`result` decrements the fresh block from 1 to 0: the single
`destroySelf` event shows the control block *is* released (no leak),
but the single `destroyPayload` event preceding it shows `OnZeroShared`
ran — `reinterpret_cast<T*>(&holder_)->~T()` on storage in which no `T`
was ever constructed, which is undefined behaviour.  This violates the
claim's "no use of the never-constructed payload": the spec requires
scoped cleanup that releases the block without touching the
unconstructed payload, and the code's release path is the slip. -/
theorem C8_makeShared_throw_runs_dtor_on_unconstructed :
    (MakeSharedTry [] false).1 = none ∧
    (MakeSharedTry [] false).2 = [⟨CBKind.msBlock, 0, 0,
      [CBEvent.destroyPayload, CBEvent.destroySelf]⟩] ∧
    List.count CBEvent.destroySelf
      (⟨CBKind.msBlock, 0, 0,
        [CBEvent.destroyPayload, CBEvent.destroySelf]⟩ : CtrlBlock).log = 1 ∧
    List.count CBEvent.destroyPayload
      (⟨CBKind.msBlock, 0, 0,
        [CBEvent.destroyPayload, CBEvent.destroySelf]⟩ : CtrlBlock).log = 1 := by
  refine ⟨?_, ?_, ?_, ?_⟩ <;> decide

/-- C9: for every `UniquePtr` (holding any pointer, possibly null),
`Release()` returns the held raw pointer, leaves the handle empty
(`Get()` is null afterwards), performs no deleter invocation itself,
and the subsequent destruction of the released handle invokes the
deleter on nothing. -/
theorem C9_Release_spec (u : UniquePtr) :
    (u.Release).1 = u.Get ∧
    (u.Release).2.1.Get = none ∧
    (u.Release).2.2 = [] ∧
    ((u.Release).2.1.destruct).2 = [] := by
  exact ⟨rfl, rfl, rfl, rfl⟩

/-- C10: constructing a `SharedPtr` explicitly from a null raw pointer
yields a handle that converts to `false` and whose `Get()` is null, yet
whose `UseCount()` is 1 (a control block was allocated for the null
pointer); copying that handle takes the `!other` branch of the copy
constructor, so the copy is fully empty — `UseCount()` 0, no shared
control block, heap untouched — and the original's count stays 1. -/
theorem C10_null_raw_construction_spec :
    (SharedPtr.fromRaw [] none).1.toBool = false ∧
    (SharedPtr.fromRaw [] none).1.Get = none ∧
    SharedPtr.UseCount (SharedPtr.fromRaw [] none).2 (SharedPtr.fromRaw [] none).1 = some 1 ∧
    SharedPtr.copy (SharedPtr.fromRaw [] none).2 (SharedPtr.fromRaw [] none).1 =
      some (SharedPtr.mkEmpty, (SharedPtr.fromRaw [] none).2) ∧
    SharedPtr.mkEmpty.p_ctrl_block_ = none ∧
    SharedPtr.UseCount (SharedPtr.fromRaw [] none).2 SharedPtr.mkEmpty = some 0 := by
  refine ⟨?_, ?_, ?_, ?_, ?_, ?_⟩ <;> decide
